import Mathlib

/-!
Verification of the SFTP-to-S3 batch file processor (`lambda_function.py`).

The development shallowly embeds the core logic of the program:

* `parse_filename` — the filename classifier built on the regex
  `^(?:(\d+)_)?(\d{8})_(.+?)(?:\.zip|\.csv)$` (`FileProcessor.parse_filename`).
  The regex engine's backtracking semantics for this particular pattern are
  reproduced exactly: the optional numeric prefix is matched greedily (and only
  the maximal digit run can ever be the prefix, since backtracking a shorter
  run leaves a digit where the `_` is required), the base-name group is
  non-greedy, the dot `.` does not match a newline, and `$` accepts an
  optional trailing newline.  `\d` is modelled as an ASCII digit.
* `group_files` — grouping by `date_baseName` into an insertion-ordered map
  (`FileProcessor.group_files`); Python's insertion-ordered `dict` is modelled
  as an association list.
* a local file-system model (`LocalFS`) over which the per-group pipeline
  (`process_body` / `process_file_group`, from `FileProcessor.process_file_group`)
  is expressed: download, merge (`merge_files`), unzip (`unzip_file`),
  gzip with the 250 MiB ceiling (`gzip_file`), upload-key computation, and the
  `finally`-cleanup (`rmtree`).  Archive payloads and the gzip transformation
  are abstract parameters; remote fetch may fail, with `none` modelling an
  I/O failure.
* `runGroups` / `statusCode` — the batch driver loop of `lambda_handler`
  with its per-group failure containment.
-/

/-- Byte strings are modelled as lists of naturals. -/
abbrev Bytes := List Nat

/-- Errors raised by the modelled code.  `valueError` corresponds to Python's
`ValueError` (the size-policy violation); `ioError` to environment/IO
failures.  Keeping them distinct mirrors the spec's requirement that the
size-policy violation be distinguishable from I/O failures. -/
inductive PyErr where
  | ioError (msg : String)
  | valueError (msg : String)
deriving DecidableEq, Repr

/-- Lexicographic (code-point) comparison on character lists; this is the
order Python's `sorted` uses on strings. -/
def lexLe : List Char → List Char → Bool
  | [], _ => true
  | _ :: _, [] => false
  | a :: as, b :: bs => if a = b then lexLe as bs else decide (a.toNat < b.toNat)

/-- Python's `<=` on strings. -/
def strLe (a b : String) : Bool := lexLe a.data b.data

/-- Python's `sorted` on a list of strings: the sorted permutation of the
input under code-point order (insertion sort is a stable sorting algorithm,
like Python's timsort; under a total antisymmetric order the sorted
permutation is unique anyway). -/
def sortStrings (l : List String) : List String :=
  l.insertionSort (fun a b => strLe a b = true)

/- ## Filename classifier (`FileProcessor.parse_filename`) -/

/-- Does the remaining input match the regex tail `(?:\.zip|\.csv)$`?
In Python, `$` also matches just before a single trailing newline. -/
def tailMatch (t : List Char) : Bool :=
  (t == ".zip".data || t == (".zip" ++ "\n").data)
    || (t == ".csv".data || t == (".csv" ++ "\n").data)

/-- Match `(.+?)(?:\.zip|\.csv)$` against the input, returning the text
captured by the non-greedy group `(.+?)`: the shortest non-empty prefix of
newline-free characters after which the tail matches.  `acc` holds the
characters taken so far. -/
def baseExt (acc : List Char) : List Char → Option (List Char)
  | [] => none
  | c :: rest =>
    if c = '\n' then none
    else if tailMatch rest then some (acc ++ [c])
    else baseExt (acc ++ [c]) rest

/-- Match `(\d{8})_(.+?)(?:\.zip|\.csv)$` against the input, returning the
date token and the base name.  Scope note: `\d` is modelled as an ASCII
digit (`Char.isDigit`); Python's `\d` on a `str` pattern also matches other
Unicode decimal digits (and `int` parses them), so on names containing such
digits the real classifier accepts where this model rejects — the theorems
below are stated within the ASCII fragment. -/
def matchDatePart (cs : List Char) : Option (List Char × List Char) :=
  let d := cs.take 8
  if d.length == 8 && d.all Char.isDigit then
    match cs.drop 8 with
    | '_' :: rest => (baseExt [] rest).map (fun b => (d, b))
    | _ => none
  else none

/-- Full match of `^(?:(\d+)_)?(\d{8})_(.+?)(?:\.zip|\.csv)$`, returning the
three capture groups (optional part prefix, date, base name).  The optional
prefix group is greedy: it is tried first, and only the maximal digit run
followed by `_` is a viable prefix (any shorter run of `\d+` is followed by a
digit, where the regex requires `_`). -/
def pyMatch (cs : List Char) : Option (Option (List Char) × List Char × List Char) :=
  let run := cs.takeWhile Char.isDigit
  let noPre := fun (_ : Unit) => (matchDatePart cs).map (fun p => (none, p.1, p.2))
  if run.isEmpty then noPre ()
  else
    match cs.drop run.length with
    | '_' :: rest =>
      match matchDatePart rest with
      | some p => some (some run, p.1, p.2)
      | none => noPre ()
    | _ => noPre ()

/-- Python's `int` on a string of ASCII digits. -/
def strToNat (cs : List Char) : Nat :=
  cs.foldl (fun n c => n * 10 + (c.toNat - 48)) 0

/-- The descriptor dictionary built by `FileProcessor.parse_filename`. -/
structure ParsedFile where
  part_num : Option Nat
  date : String
  base_name : String
  is_zip : Bool
  full_name : String
deriving DecidableEq, Repr

/-- Python's `str.endswith`. -/
def endsWithChars (suf cs : List Char) : Bool :=
  cs.reverse.take suf.length == suf.reverse

/-- Model of `FileProcessor.parse_filename`: apply the regex; on a match build the
descriptor.  `int(part_num) if part_num else None` keeps `None` exactly when
the optional group did not participate (a captured group is a non-empty digit
string, hence truthy). -/
def parse_filename (filename : String) : Option ParsedFile :=
  match pyMatch filename.data with
  | none => none
  | some (pre, d, b) =>
    some { part_num := pre.map strToNat
           date := String.mk d
           base_name := String.mk b
           is_zip := endsWithChars ".zip".data filename.data
           full_name := filename }

/- ## Group builder (`FileProcessor.group_files`) -/

/-- The grouping key `f"{date}_{base_name}"`. -/
def groupKeyOf (p : ParsedFile) : String := p.date ++ "_" ++ p.base_name

/-- Insertion into an insertion-ordered dictionary of lists, modelling
`if key not in d: d[key] = []` followed by `d[key].append(parsed)`. -/
def addToGroup : List (String × List ParsedFile) → String → ParsedFile →
    List (String × List ParsedFile)
  | [], key, p => [(key, [p])]
  | (k, ps) :: rest, key, p =>
    if k = key then (k, ps ++ [p]) :: rest else (k, ps) :: addToGroup rest key p

/-- Model of `FileProcessor.group_files`: classify every listed name and append each
recognized descriptor to its group, in listing order. -/
def group_files (files : List String) : List (String × List ParsedFile) :=
  files.foldl
    (fun gs file =>
      match parse_filename file with
      | none => gs
      | some parsed => addToGroup gs (groupKeyOf parsed) parsed)
    []

/- ## Local file-system model -/

/-- File store: association list from path to contents (first hit wins). -/
abbrev FSFiles := List (String × Bytes)

/-- Write (create or overwrite) a file. -/
def setFile (fs : FSFiles) (p : String) (c : Bytes) : FSFiles :=
  match fs with
  | [] => [(p, c)]
  | (q, d) :: rest => if q = p then (q, c) :: rest else (q, d) :: setFile rest p c

/-- Read a file. -/
def getFile (fs : FSFiles) (p : String) : Option Bytes :=
  match fs with
  | [] => none
  | (q, d) :: rest => if q = p then some d else getFile rest p

/-- Local filesystem: files plus the set of explicitly created directories. -/
structure LocalFS where
  files : FSFiles
  dirs : List String
deriving DecidableEq, Repr

/-- Is `cs` an extension of `pre`? -/
def startsWithChars (pre cs : List Char) : Bool :=
  cs.take pre.length == pre

/-- Is path `p` the directory `wd` itself or located underneath it? -/
def underDir (wd p : String) : Bool :=
  (p == wd) || startsWithChars (wd ++ "/").data p.data

/-- Python's `shutil.rmtree(wd)`: remove the directory and everything under it. -/
def rmtree (wd : String) (fs : LocalFS) : LocalFS :=
  { files := fs.files.filter (fun e => !underDir wd e.1)
    dirs := fs.dirs.filter (fun d => !underDir wd d) }

/-- Python's `os.makedirs` with the exist-ok flag. -/
def makedirs (d : String) (fs : LocalFS) : LocalFS :=
  { fs with dirs := if fs.dirs.contains d then fs.dirs else fs.dirs ++ [d] }

/-- Python's `os.path.join` for POSIX paths (two arguments, as used by the program). -/
def pyJoin (a b : String) : String :=
  if b.data.head? = some '/' then b
  else if a = "" ∨ a.data.getLast? = some '/' then a ++ b
  else a ++ "/" ++ b

/-- Python's `os.path.basename`: the part of the path after the last `/`. -/
def basenameStr (p : String) : String :=
  String.mk ((p.data.reverse.takeWhile (fun c => c ≠ '/')).reverse)

/-- First component of `os.path.splitext`, per CPython: split at the last dot
of the final path component, provided some character of that component
strictly before this dot is not itself a dot (so that names consisting only
of leading dots keep their "extension"). -/
def splitextFst (p : String) : String :=
  let rev := p.data.reverse
  let baseRev := rev.takeWhile (fun c => c ≠ '/')
  let dirRev := rev.dropWhile (fun c => c ≠ '/')
  let after := baseRev.takeWhile (fun c => c ≠ '.')
  if after.length = baseRev.length then p
  else
    let preRev := baseRev.drop (after.length + 1)
    if preRev.any (fun c => c ≠ '.') then String.mk (dirRev.reverse ++ preRev.reverse)
    else p

/- ## Group pipeline (`FileProcessor.process_file_group`) -/

/-- Download every member into the working directory
(`self.download_file(file_info['full_name'], local_path)`), accumulating the
local paths; a failed fetch aborts the remaining downloads. -/
def downloadAll (fetch : String → Option Bytes) (wd : String) :
    List ParsedFile → LocalFS → (Except PyErr (List String)) × LocalFS
  | [], fs => (.ok [], fs)
  | f :: rest, fs =>
    let lp := pyJoin wd f.full_name
    match fetch f.full_name with
    | none => (.error (.ioError ("download " ++ f.full_name)), fs)
    | some c =>
      match downloadAll fetch wd rest { fs with files := setFile fs.files lp c } with
      | (r, fs') => (r.map (fun ls => lp :: ls), fs')

/-- Read and concatenate the named files in the given order; a missing file
is an I/O error. -/
def readConcat (fs : LocalFS) : List String → Except PyErr Bytes
  | [] => .ok []
  | p :: rest =>
    match getFile fs.files p with
    | none => .error (.ioError p)
    | some c => (readConcat fs rest).map (fun r => c ++ r)

/-- Model of `FileProcessor.merge_files`: open the output for writing (truncating it),
then append the raw bytes of every input file in ascending (`sorted`) order
of path. -/
def merge_files (fs : LocalFS) (file_paths : List String) (output : String) :
    (Except PyErr Unit) × LocalFS :=
  let fl0 := setFile fs.files output []
  match readConcat { fs with files := fl0 } (sortStrings file_paths) with
  | .error e => (.error e, { fs with files := fl0 })
  | .ok c => (.ok (), { fs with files := setFile fl0 output c })

/-- The merge trigger `any(f['part_num'] for f in file_group)`: Python's
`any` tests the *truthiness* of each value, so `None` and `0` both count as
false. -/
def mergeTriggered (file_group : List ParsedFile) : Bool :=
  file_group.any (fun f =>
    match f.part_num with
    | none => false
    | some n => n != 0)

/-- The multi-part handling step of `process_file_group`: when the group is
merge-triggered, merge all downloaded files into `{group_key}.csv` inside the
working directory and replace the member list by that single artifact;
otherwise pass the downloaded files through unchanged. -/
def stage2 (group_key wd : String) (file_group : List ParsedFile)
    (locals : List String) (fs : LocalFS) : (Except PyErr (List String)) × LocalFS :=
  if mergeTriggered file_group then
    let merged := pyJoin wd (group_key ++ ".csv")
    match merge_files fs locals merged with
    | (.error e, fs') => (.error e, fs')
    | (.ok _, fs') => (.ok [merged], fs')
  else (.ok locals, fs)

/-- Model of `FileProcessor.unzip_file`: extract the archive's entries into the
extraction directory and return `os.path.splitext(zip_path)[0]` as the output
path.  The mapping from archive bytes to entries (relative path, contents) is
an abstract parameter `uz`. -/
def unzip_file (uz : Bytes → List (String × Bytes)) (fs : LocalFS)
    (zip_path extract_path : String) : (Except PyErr String) × LocalFS :=
  match getFile fs.files zip_path with
  | none => (.error (.ioError zip_path), fs)
  | some c =>
    (.ok (splitextFst zip_path),
     { fs with
        files := (uz c).foldl (fun fl e => setFile fl (pyJoin extract_path e.1) e.2) fs.files })

/-- The zip-handling loop of `process_file_group`: files ending in `.zip` are
replaced by their extraction output path; all others pass through unchanged. -/
def unzipAll (uz : Bytes → List (String × Bytes)) (wd : String) :
    List String → LocalFS → (Except PyErr (List String)) × LocalFS
  | [], fs => (.ok [], fs)
  | p :: rest, fs =>
    if endsWithChars ".zip".data p.data then
      match unzip_file uz fs p wd with
      | (.error e, fs') => (.error e, fs')
      | (.ok out, fs') =>
        match unzipAll uz wd rest fs' with
        | (r, fs'') => (r.map (fun ls => out :: ls), fs'')
    else
      match unzipAll uz wd rest fs with
      | (r, fs') => (r.map (fun ls => p :: ls), fs')

/-- Model of `FileProcessor.gzip_file`: write the compressed copy, then raise
`ValueError` when it exceeds the 250 MiB ceiling (`250 * 1024 * 1024` bytes).
The compression itself is an abstract parameter `gz`.  Note the output file is
written before the size check, so it exists even when the check fails (the
caller's cleanup removes it). -/
def gzip_file (gz : Bytes → Bytes) (fs : LocalFS) (input output : String) :
    (Except PyErr Unit) × LocalFS :=
  match getFile fs.files input with
  | none => (.error (.ioError input), fs)
  | some c =>
    let g := gz c
    let fs' := { fs with files := setFile fs.files output g }
    if 250 * 1024 * 1024 < g.length then
      (.error (.valueError ("Gzipped file " ++ output ++ " exceeds 250MB limit")), fs')
    else (.ok (), fs')

/-- The gzip-and-upload loop of `process_file_group`: compress each artifact
to `{path}.gz`, upload it under the S3 key `os.path.basename` of the
compressed path, and collect the keys. -/
def gzipUploadAll (gz : Bytes → Bytes) :
    List String → LocalFS → (Except PyErr (List String)) × LocalFS
  | [], fs => (.ok [], fs)
  | p :: rest, fs =>
    match gzip_file gz fs p (p ++ ".gz") with
    | (.error e, fs') => (.error e, fs')
    | (.ok _, fs') =>
      match gzipUploadAll gz rest fs' with
      | (r, fs'') => (r.map (fun ks => basenameStr (p ++ ".gz") :: ks), fs'')

/-- Body of the `try` block of `FileProcessor.process_file_group`: make the working
directory `/tmp/{group_key}`, download all members, apply the multi-part
merge, unzip archives, then gzip and upload, returning the produced S3 keys.
The returned filesystem is the state reached when the block finishes or the
first error is raised. -/
def process_body (fetch : String → Option Bytes) (uz : Bytes → List (String × Bytes))
    (gz : Bytes → Bytes) (group_key : String) (file_group : List ParsedFile)
    (fs0 : LocalFS) : (Except PyErr (List String)) × LocalFS :=
  let wd := "/tmp/" ++ group_key
  let fs1 := makedirs wd fs0
  match downloadAll fetch wd file_group fs1 with
  | (.error e, fs2) => (.error e, fs2)
  | (.ok locals, fs2) =>
    match stage2 group_key wd file_group locals fs2 with
    | (.error e, fs3) => (.error e, fs3)
    | (.ok files3, fs3) =>
      match unzipAll uz wd files3 fs3 with
      | (.error e, fs4) => (.error e, fs4)
      | (.ok files4, fs4) => gzipUploadAll gz files4 fs4

/-- Model of `FileProcessor.process_file_group` with its `finally` clause: whatever the
`try` block produced — success or error — the working directory is removed
before the result propagates. -/
def process_file_group (fetch : String → Option Bytes)
    (uz : Bytes → List (String × Bytes)) (gz : Bytes → Bytes)
    (group_key : String) (file_group : List ParsedFile) (fs0 : LocalFS) :
    (Except PyErr (List String)) × LocalFS :=
  match process_body fetch uz gz group_key file_group fs0 with
  | (r, fsB) => (r, rmtree ("/tmp/" ++ group_key) fsB)

/- ## Batch driver (`lambda_handler`) -/

/-- Python's `str(e)` on the modelled exceptions. -/
def errStr : PyErr → String
  | .ioError m => m
  | .valueError m => m

/-- The per-group loop of `lambda_handler`: run every group in order; extend
the collected S3 keys on success; on failure append
`f"Error processing group {group_key}: {str(e)}"` to the errors and continue
with the next group. -/
def runGroups (run : String → List ParsedFile → Except PyErr (List String))
    (groups : List (String × List ParsedFile)) : List String × List String :=
  groups.foldl
    (fun acc g =>
      match run g.1 g.2 with
      | .ok ps => (acc.1 ++ ps, acc.2)
      | .error e =>
        (acc.1, acc.2 ++ ["Error processing group " ++ g.1 ++ ": " ++ errStr e]))
    ([], [])

/-- The response status of `lambda_handler`:
`200 if not processing_errors else 500`. -/
def statusCode (errors : List String) : Nat :=
  if errors = [] then 200 else 500

/- ## Statement-level definitions -/

/-- A wire-format filename assembled from its components: optional digit
prefix, 8-digit date, base name, extension. -/
def wireName (p : Option (List Char)) (d b ext : List Char) : String :=
  String.mk ((match p with | some q => q ++ ['_'] | none => []) ++ (d ++ '_' :: (b ++ ext)))

/-- When a wire-format name has no explicit part prefix, the greedy optional
prefix group of the regex can nevertheless participate exactly when the base
name itself starts with eight digits, an underscore, and at least one further
character; in that reading the date token serves as the part prefix.  This is
the disambiguation the regex applies, so the claim's description "the date is
the 8-digit token immediately following the optional numeric prefix" refers
to the prefixed reading whenever `prefAmb` holds. -/
def prefAmb (b : List Char) : Prop :=
  ((b.take 8).all Char.isDigit = true) ∧ (b.drop 8).head? = some '_' ∧ 10 ≤ b.length

/-- Total size of all groups (number of descriptors over all groups). -/
def sumSizes (gs : List (String × List ParsedFile)) : Nat :=
  (gs.map (fun g => g.2.length)).sum

/-- Does the name end in one of the two wire-format extensions?  Every name
assembled per the wire format does (`wireName_endsWithExt`), so a string on
which this test is false matches the wire format under no decomposition at
all. -/
def endsWithExt (s : String) : Bool :=
  endsWithChars ".csv".data s.data || endsWithChars ".zip".data s.data

/- # Lemmas about the classifier -/

lemma takeWhile_all_append (q : Char → Bool) (l r : List Char)
    (h : ∀ a ∈ l, q a = true) : (l ++ r).takeWhile q = l ++ r.takeWhile q := by
  induction l with
  | nil => simp
  | cons c cs ih =>
    have hc : q c = true := h c (by simp)
    simp only [List.cons_append, List.takeWhile_cons, hc, if_true]
    rw [ih (fun a ha => h a (by simp [ha]))]

lemma tailMatch_append_false (m ext : List Char) (hm : m ≠ [])
    (he : ext = ".zip".data ∨ ext = ".csv".data
      ∨ ext = (".zip" ++ "\n").data ∨ ext = (".csv" ++ "\n").data) :
    tailMatch (m ++ ext) = false := by
  rcases m with _ | ⟨c, ms⟩
  · exact absurd rfl hm
  · have hz4 : (".zip".data : List Char).length = 4 := rfl
    have hc4 : (".csv".data : List Char).length = 4 := rfl
    have hz5 : ((".zip" ++ "\n").data : List Char).length = 5 := rfl
    have hc5 : ((".csv" ++ "\n").data : List Char).length = 5 := rfl
    have hlext : ext.length = 4 ∨ ext.length = 5 := by
      rcases he with rfl | rfl | rfl | rfl
      · exact Or.inl hz4
      · exact Or.inl hc4
      · exact Or.inr hz5
      · exact Or.inr hc5
    have hlen4 : ∀ t : List Char, t.length = 4 → c :: (ms ++ ext) ≠ t := by
      intro t ht h
      have hl := congrArg List.length h
      simp only [List.length_cons, List.length_append, ht] at hl
      rcases hlext with h4 | h5 <;> omega
    have hlen5 : ∀ t : List Char, t.length = 5 → t.getLast? = some '\n' →
        c :: (ms ++ ext) ≠ t := by
      intro t ht hlast h
      have hl := congrArg List.length h
      simp only [List.length_cons, List.length_append, ht] at hl
      rcases he with rfl | rfl | rfl | rfl
      · have hms : ms = [] := by
          rw [hz4] at hl
          have h0 : ms.length = 0 := by omega
          exact List.length_eq_zero.mp h0
        subst hms
        have hlast2 := congrArg List.getLast? h
        rw [hlast] at hlast2
        rw [show (c :: (([] : List Char) ++ ".zip".data)).getLast? = some 'p' from rfl]
          at hlast2
        exact absurd hlast2 (by decide)
      · have hms : ms = [] := by
          rw [hc4] at hl
          have h0 : ms.length = 0 := by omega
          exact List.length_eq_zero.mp h0
        subst hms
        have hlast2 := congrArg List.getLast? h
        rw [hlast] at hlast2
        rw [show (c :: (([] : List Char) ++ ".csv".data)).getLast? = some 'v' from rfl]
          at hlast2
        exact absurd hlast2 (by decide)
      · rw [hz5] at hl
        omega
      · rw [hc5] at hl
        omega
    simp only [List.cons_append, tailMatch, Bool.or_eq_false_iff]
    refine ⟨⟨?_, ?_⟩, ?_, ?_⟩ <;> rw [beq_eq_false_iff_ne]
    · exact hlen4 _ (by decide)
    · exact hlen5 _ (by decide) (by decide)
    · exact hlen4 _ (by decide)
    · exact hlen5 _ (by decide) (by decide)

lemma baseExt_append : ∀ (b : List Char), b ≠ [] → '\n' ∉ b →
    ∀ (ext : List Char),
    (ext = ".zip".data ∨ ext = ".csv".data
      ∨ ext = (".zip" ++ "\n").data ∨ ext = (".csv" ++ "\n").data) →
    ∀ (acc : List Char), baseExt acc (b ++ ext) = some (acc ++ b) := by
  intro b
  induction b with
  | nil => intro hb; exact absurd rfl hb
  | cons c cs ih =>
    intro _ hn ext he acc
    have hc : ¬ (c = '\n') := fun h => hn (by simp [h])
    rcases cs with _ | ⟨c2, cs2⟩
    · have ht : tailMatch ext = true := by rcases he with rfl | rfl | rfl | rfl <;> decide
      simp [baseExt, hc, ht]
    · have hf : tailMatch ((c2 :: cs2) ++ ext) = false :=
        tailMatch_append_false _ _ (by simp) he
      have hn' : '\n' ∉ c2 :: cs2 := fun h => hn (List.mem_cons_of_mem _ h)
      have hstep : baseExt acc ((c :: c2 :: cs2) ++ ext) =
          baseExt (acc ++ [c]) ((c2 :: cs2) ++ ext) := by
        show (if c = '\n' then none
              else if tailMatch ((c2 :: cs2) ++ ext) then some (acc ++ [c])
              else baseExt (acc ++ [c]) ((c2 :: cs2) ++ ext)) = _
        rw [if_neg hc, if_neg (by intro h; rw [hf] at h; exact absurd h (by decide))]
      rw [hstep, ih (by simp) hn' ext he (acc ++ [c])]
      simp

lemma matchDatePart_eq (d b ext : List Char) (hd8 : d.length = 8)
    (hdd : ∀ c ∈ d, c.isDigit = true) (hb : b ≠ []) (hn : '\n' ∉ b)
    (he : ext = ".zip".data ∨ ext = ".csv".data
      ∨ ext = (".zip" ++ "\n").data ∨ ext = (".csv" ++ "\n").data) :
    matchDatePart (d ++ '_' :: (b ++ ext)) = some (d, b) := by
  have htake : (d ++ '_' :: (b ++ ext)).take 8 = d := List.take_left' hd8
  have hdrop : (d ++ '_' :: (b ++ ext)).drop 8 = '_' :: (b ++ ext) := by
    rw [← hd8]; exact List.drop_left d _
  have hall : d.all Char.isDigit = true := List.all_eq_true.mpr hdd
  simp only [matchDatePart, htake, hdrop, hd8, hall]
  simp [baseExt_append b hb hn ext he []]

lemma baseExt_ext_none (ext : List Char)
    (he : ext = ".zip".data ∨ ext = ".csv".data
      ∨ ext = (".zip" ++ "\n").data ∨ ext = (".csv" ++ "\n").data) :
    baseExt [] ext = none := by
  rcases he with rfl | rfl | rfl | rfl <;> rfl

lemma matchDatePart_append_none (b ext : List Char) (hn : '\n' ∉ b)
    (he : ext = ".zip".data ∨ ext = ".csv".data
      ∨ ext = (".zip" ++ "\n").data ∨ ext = (".csv" ++ "\n").data)
    (hamb : ¬ prefAmb b) :
    matchDatePart (b ++ ext) = none := by
  by_cases hall : ((b ++ ext).take 8).all Char.isDigit = true
  case neg =>
    simp only [matchDatePart]
    rw [Bool.and_eq_false_iff.mpr (Or.inr (by simp [hall]))]
    rfl
  case pos =>
    rcases Nat.lt_or_ge b.length 8 with hlen | hlen8
    · exfalso
      have hdot : '.' ∈ (b ++ ext).take 8 := by
        rw [List.take_append_eq_append_take]
        obtain ⟨k, hk⟩ : ∃ k, 8 - b.length = k + 1 :=
          ⟨8 - b.length - 1, by omega⟩
        obtain ⟨tl, htl⟩ : ∃ tl, ext = '.' :: tl := by
          rcases he with rfl | rfl | rfl | rfl <;> exact ⟨_, rfl⟩
        rw [hk, htl]
        exact List.mem_append_right _ (by simp [List.take_succ_cons])
      have := List.all_eq_true.mp hall '.' hdot
      simp at this
    rcases Nat.eq_or_lt_of_le hlen8 with hlen | hlen9
    · have htake : (b ++ ext).take 8 = b := List.take_left' hlen.symm
      have hdrop : (b ++ ext).drop 8 = ext := by
        rw [hlen]; exact List.drop_left b ext
      simp only [matchDatePart, htake, hdrop]
      rcases he with rfl | rfl | rfl | rfl <;> (split <;> rfl)
    · have htake : (b ++ ext).take 8 = b.take 8 :=
        List.take_append_of_le_length (by omega)
      have hdrop : (b ++ ext).drop 8 = b.drop 8 ++ ext :=
        List.drop_append_of_le_length (by omega)
      have hcond : (((b ++ ext).take 8).length == 8 && ((b ++ ext).take 8).all Char.isDigit)
          = true := by
        rw [Bool.and_eq_true]
        refine ⟨?_, hall⟩
        have h8 : ((b ++ ext).take 8).length = 8 := by
          rw [htake, List.length_take]
          exact Nat.min_eq_left (by omega)
        rw [h8]
        decide
      rcases hbd : b.drop 8 with _ | ⟨c, t⟩
      · exfalso
        have := congrArg List.length hbd
        simp at this
        omega
      by_cases hc : c = '_'
      case neg =>
        simp only [matchDatePart]
        rw [if_pos hcond, hdrop, hbd]
        simp only [List.cons_append]
        split
        · rename_i heq
          injection heq with h1 _
          exact absurd h1 hc
        · rfl
      case pos =>
        subst hc
        rcases Nat.lt_or_ge b.length 10 with hlen10 | hlen10
        · have ht : t = [] := by
            have := congrArg List.length hbd
            simp at this
            have ht0 : t.length = 0 := by omega
            exact List.length_eq_zero.mp ht0
          subst ht
          simp only [matchDatePart]
          rw [if_pos hcond, hdrop, hbd]
          simp [baseExt_ext_none ext he]
        · exact absurd ⟨htake ▸ hall, by rw [hbd]; rfl, hlen10⟩ hamb

lemma takeWhile_digits_cons (q : List Char) (x : Char) (r : List Char)
    (hq : ∀ c ∈ q, c.isDigit = true) (hx : x.isDigit = false) :
    (q ++ x :: r).takeWhile Char.isDigit = q := by
  rw [takeWhile_all_append _ _ _ hq, List.takeWhile_cons, hx]
  simp

lemma pyMatch_noPre (d b ext : List Char) (hd8 : d.length = 8)
    (hdd : ∀ c ∈ d, c.isDigit = true) (hb : b ≠ []) (hn : '\n' ∉ b)
    (he : ext = ".zip".data ∨ ext = ".csv".data
      ∨ ext = (".zip" ++ "\n").data ∨ ext = (".csv" ++ "\n").data)
    (hamb : ¬ prefAmb b) :
    pyMatch (d ++ '_' :: (b ++ ext)) = some (none, d, b) := by
  have hrun : (d ++ '_' :: (b ++ ext)).takeWhile Char.isDigit = d :=
    takeWhile_digits_cons d '_' (b ++ ext) hdd (by decide)
  have hEmp : d.isEmpty = false := by
    cases d
    · simp at hd8
    · rfl
  have hdrop : (d ++ '_' :: (b ++ ext)).drop d.length = '_' :: (b ++ ext) :=
    List.drop_left d _
  simp only [pyMatch, hrun, hEmp, hdrop, matchDatePart_append_none b ext hn he hamb,
    matchDatePart_eq d b ext hd8 hdd hb hn he]
  simp

lemma pyMatch_withPre (q d b ext : List Char) (hq : q ≠ [])
    (hqd : ∀ c ∈ q, c.isDigit = true) (hd8 : d.length = 8)
    (hdd : ∀ c ∈ d, c.isDigit = true) (hb : b ≠ []) (hn : '\n' ∉ b)
    (he : ext = ".zip".data ∨ ext = ".csv".data
      ∨ ext = (".zip" ++ "\n").data ∨ ext = (".csv" ++ "\n").data) :
    pyMatch (q ++ '_' :: (d ++ '_' :: (b ++ ext))) = some (some q, d, b) := by
  have hrun : (q ++ '_' :: (d ++ '_' :: (b ++ ext))).takeWhile Char.isDigit = q :=
    takeWhile_digits_cons q '_' _ hqd (by decide)
  have hEmp : q.isEmpty = false := by
    cases q
    · exact absurd rfl hq
    · rfl
  have hdrop : (q ++ '_' :: (d ++ '_' :: (b ++ ext))).drop q.length
      = '_' :: (d ++ '_' :: (b ++ ext)) := List.drop_left q _
  simp only [pyMatch, hrun, hEmp, hdrop, matchDatePart_eq d b ext hd8 hdd hb hn he]
  simp

lemma endsWith_ext (x ext : List Char)
    (he : ext = ".zip".data ∨ ext = ".csv".data) :
    endsWithChars ".zip".data (x ++ ext) = (ext == ".zip".data) := by
  rcases he with rfl | rfl <;>
    (simp only [endsWithChars, List.reverse_append]
     rw [List.take_left' (by decide)]
     decide)

/-- C1: for every filename assembled per the wire format
`[digits_]date8_base.(csv|zip)` — with a non-empty newline-free base name,
and, when no part prefix is given, a base name that does not itself allow the
regex's greedy prefixed reading (`prefAmb`) — `parse_filename` produces
exactly one descriptor whose date is the 8-digit token following the optional
prefix, whose base name is the non-greedy middle segment (underscores in it
allowed), whose part number is the integer value of the digit prefix when
present (leading zeros are dropped by `strToNat`, so prefixes "01" and "1"
agree) and absent otherwise, and whose archive flag is true iff the extension
is `.zip`. -/
theorem c1_wire_format_classification
    (p : Option (List Char)) (d b ext : List Char)
    (hd8 : d.length = 8) (hdd : ∀ c ∈ d, c.isDigit = true)
    (hb : b ≠ []) (hbn : '\n' ∉ b)
    (hext : ext = ".zip".data ∨ ext = ".csv".data)
    (hpre : ∀ q, p = some q → q ≠ [] ∧ ∀ c ∈ q, c.isDigit = true)
    (hnone : p = none → ¬ prefAmb b) :
    parse_filename (wireName p d b ext) =
      some { part_num := p.map strToNat, date := String.mk d,
             base_name := String.mk b, is_zip := ext == ".zip".data,
             full_name := wireName p d b ext }
    ∧ ∀ q : List Char, strToNat ('0' :: q) = strToNat q := by
  have hext4 : ext = ".zip".data ∨ ext = ".csv".data
      ∨ ext = (".zip" ++ "\n").data ∨ ext = (".csv" ++ "\n").data := by
    rcases hext with rfl | rfl
    · exact Or.inl rfl
    · exact Or.inr (Or.inl rfl)
  refine ⟨?_, fun q => rfl⟩
  cases p with
  | none =>
    have hdata : (wireName none d b ext).data = d ++ '_' :: (b ++ ext) := rfl
    have hpy : pyMatch (wireName none d b ext).data = some (none, d, b) := by
      rw [hdata]
      exact pyMatch_noPre d b ext hd8 hdd hb hbn hext4 (hnone rfl)
    have hzip : endsWithChars ".zip".data (wireName none d b ext).data
        = (ext == ".zip".data) := by
      rw [hdata, show d ++ '_' :: (b ++ ext) = (d ++ '_' :: b) ++ ext by simp]
      exact endsWith_ext _ _ hext
    simp only [parse_filename, hpy, hzip]
  | some q =>
    obtain ⟨hq, hqd⟩ := hpre q rfl
    have hdata : (wireName (some q) d b ext).data
        = q ++ '_' :: (d ++ '_' :: (b ++ ext)) := by
      show (q ++ ['_']) ++ (d ++ '_' :: (b ++ ext)) = _
      simp
    have hpy : pyMatch (wireName (some q) d b ext).data = some (some q, d, b) := by
      rw [hdata]
      exact pyMatch_withPre q d b ext hq hqd hd8 hdd hb hbn hext4
    have hzip : endsWithChars ".zip".data (wireName (some q) d b ext).data
        = (ext == ".zip".data) := by
      rw [hdata,
        show q ++ '_' :: (d ++ '_' :: (b ++ ext)) = (q ++ '_' :: (d ++ '_' :: b)) ++ ext
          by simp]
      exact endsWith_ext _ _ hext
    simp only [parse_filename, hpy, hzip]

/-- Witness for C1 at the spec's own example `"20240115_report.csv"` and at
the two-part prefixes `"01"`/`"1"`. -/
theorem c1_wire_format_classification_witness :
    parse_filename "20240115_report.csv" =
      some { part_num := none, date := "20240115", base_name := "report",
             is_zip := false, full_name := "20240115_report.csv" }
    ∧ parse_filename "01_20240115_report.csv" =
      some { part_num := some 1, date := "20240115", base_name := "report",
             is_zip := false, full_name := "01_20240115_report.csv" }
    ∧ parse_filename "1_20240115_report.csv" =
      some { part_num := some 1, date := "20240115", base_name := "report",
             is_zip := false, full_name := "1_20240115_report.csv" } := by
  refine ⟨?_, ?_, ?_⟩
  · have h := c1_wire_format_classification none "20240115".data "report".data
      ".csv".data (by decide) (by decide) (by decide) (by decide) (Or.inr rfl)
      (fun q hq => by cases hq) (fun _ => by unfold prefAmb; decide)
    exact (by decide : wireName none "20240115".data "report".data ".csv".data
        = "20240115_report.csv") ▸ h.1
  · have h := c1_wire_format_classification (some "01".data) "20240115".data
      "report".data ".csv".data (by decide) (by decide) (by decide) (by decide)
      (Or.inr rfl) (fun q hq => by cases hq; exact ⟨by decide, by decide⟩)
      (fun hq => by cases hq)
    exact (by decide : wireName (some "01".data) "20240115".data "report".data
        ".csv".data = "01_20240115_report.csv") ▸ h.1
  · have h := c1_wire_format_classification (some "1".data) "20240115".data
      "report".data ".csv".data (by decide) (by decide) (by decide) (by decide)
      (Or.inr rfl) (fun q hq => by cases hq; exact ⟨by decide, by decide⟩)
      (fun hq => by cases hq)
    exact (by decide : wireName (some "1".data) "20240115".data "report".data
        ".csv".data = "1_20240115_report.csv") ▸ h.1

/- # Lemmas about grouping -/

lemma matchDatePart_date_length (cs : List Char) (p : List Char × List Char)
    (h : matchDatePart cs = some p) : p.1.length = 8 := by
  simp only [matchDatePart] at h
  by_cases hc : ((cs.take 8).length == 8 && (cs.take 8).all Char.isDigit) = true
  · rw [if_pos hc] at h
    have h8 : (cs.take 8).length = 8 :=
      beq_iff_eq.mp ((Bool.and_eq_true _ _ ▸ hc).1)
    split at h
    · rcases Option.map_eq_some'.mp h with ⟨b, _, hp⟩
      rw [← hp]
      exact h8
    · exact absurd h (by simp)
  · rw [if_neg hc] at h
    exact absurd h (by simp)

lemma pyMatch_date_length (cs : List Char)
    (r : Option (List Char) × List Char × List Char)
    (h : pyMatch cs = some r) : r.2.1.length = 8 := by
  simp only [pyMatch] at h
  split at h
  · rcases Option.map_eq_some'.mp h with ⟨p, hp, hr⟩
    rw [← hr]
    exact matchDatePart_date_length _ _ hp
  · split at h
    · split at h
      · rename_i p hp
        cases h
        exact matchDatePart_date_length _ _ hp
      · rcases Option.map_eq_some'.mp h with ⟨p, hp, hr⟩
        rw [← hr]
        exact matchDatePart_date_length _ _ hp
    · rcases Option.map_eq_some'.mp h with ⟨p, hp, hr⟩
      rw [← hr]
      exact matchDatePart_date_length _ _ hp

lemma parse_filename_inv (f : String) (p : ParsedFile)
    (h : parse_filename f = some p) :
    p.full_name = f ∧ p.date.length = 8 := by
  unfold parse_filename at h
  split at h
  · exact absurd h (by simp)
  · rename_i pre d b heq
    cases h
    exact ⟨rfl, pyMatch_date_length _ _ heq⟩

lemma groupKey_inj (p q : ParsedFile) (hp : p.date.length = 8)
    (hq : q.date.length = 8) (h : groupKeyOf p = groupKeyOf q) :
    p.date = q.date ∧ p.base_name = q.base_name := by
  unfold groupKeyOf at h
  have hd := congrArg String.data h
  simp only [String.data_append] at hd
  have h1 : p.date.data ++ "_".data = q.date.data ++ "_".data ∧
      p.base_name.data = q.base_name.data := by
    apply List.append_inj hd
    have hp' : p.date.data.length = 8 := hp
    have hq' : q.date.data.length = 8 := hq
    simp [hp', hq']
  have h2 : p.date.data = q.date.data :=
    (List.append_inj h1.1 (by
      have hp' : p.date.data.length = 8 := hp
      have hq' : q.date.data.length = 8 := hq
      rw [hp', hq'])).1
  exact ⟨String.ext h2, String.ext h1.2⟩

lemma addToGroup_keys (gs : List (String × List ParsedFile)) (k : String)
    (p : ParsedFile) :
    (addToGroup gs k p).map Prod.fst =
      if k ∈ gs.map Prod.fst then gs.map Prod.fst else gs.map Prod.fst ++ [k] := by
  induction gs with
  | nil => simp [addToGroup]
  | cons g rest ih =>
    obtain ⟨k0, ps0⟩ := g
    by_cases hk : k0 = k
    · subst hk
      simp [addToGroup]
    · simp only [addToGroup, if_neg hk, List.map_cons, List.mem_cons]
      rw [ih]
      by_cases hm : k ∈ rest.map Prod.fst
      · rw [if_pos hm, if_pos (Or.inr hm)]
      · rw [if_neg hm, if_neg (by
          intro hor
          rcases hor with h | h
          · exact hk h.symm
          · exact hm h)]
        simp

lemma addToGroup_keys_nodup (gs : List (String × List ParsedFile)) (k : String)
    (p : ParsedFile) (h : (gs.map Prod.fst).Nodup) :
    ((addToGroup gs k p).map Prod.fst).Nodup := by
  rw [addToGroup_keys]
  split
  · exact h
  · rename_i hm
    simp [List.nodup_append, h, hm]

lemma addToGroup_mem {R : String → ParsedFile → Prop} :
    ∀ (gs : List (String × List ParsedFile)) (k : String) (p : ParsedFile),
    (∀ g ∈ gs, ∀ q ∈ g.2, R g.1 q) → R k p →
    ∀ g ∈ addToGroup gs k p, ∀ q ∈ g.2, R g.1 q := by
  intro gs
  induction gs with
  | nil =>
    intro k p _ hp g hg q hq
    have hg' := List.mem_singleton.mp hg
    subst hg'
    have hq' := List.mem_singleton.mp hq
    subst hq'
    exact hp
  | cons g0 rest ih =>
    obtain ⟨k0, ps0⟩ := g0
    intro k p hgs hp g hg q hq
    simp only [addToGroup] at hg
    by_cases hk : k0 = k
    · rw [if_pos hk] at hg
      rcases List.mem_cons.mp hg with heq | hmem
      · subst heq
        rcases List.mem_append.mp hq with h | h
        · exact hgs (k0, ps0) (List.mem_cons_self _ _) q h
        · have h' := List.mem_singleton.mp h
          subst h'
          exact hk.symm ▸ hp
      · exact hgs g (List.mem_cons_of_mem _ hmem) q hq
    · rw [if_neg hk] at hg
      rcases List.mem_cons.mp hg with heq | hmem
      · subst heq
        exact hgs (k0, ps0) (List.mem_cons_self _ _) q hq
      · exact ih k p (fun g' hg' q' hq' => hgs g' (List.mem_cons_of_mem _ hg') q' hq')
          hp g hmem q hq

lemma addToGroup_flatten_perm (gs : List (String × List ParsedFile)) (k : String)
    (p : ParsedFile) :
    ((addToGroup gs k p).map Prod.snd).flatten.Perm
      ((gs.map Prod.snd).flatten ++ [p]) := by
  induction gs with
  | nil => simp [addToGroup]
  | cons g0 rest ih =>
    obtain ⟨k0, ps0⟩ := g0
    by_cases hk : k0 = k
    · subst hk
      have hred : addToGroup ((k0, ps0) :: rest) k0 p = (k0, ps0 ++ [p]) :: rest := by
        simp [addToGroup]
      rw [hred]
      simp only [List.map_cons, List.flatten_cons]
      rw [List.append_assoc, List.append_assoc]
      exact List.Perm.append_left ps0 List.perm_append_comm
    · simp only [addToGroup, if_neg hk, List.map_cons, List.flatten_cons]
      rw [List.append_assoc]
      exact List.Perm.append_left ps0 ih

lemma group_files_aux_mem {R : String → ParsedFile → Prop}
    (hR : ∀ (f : String) (p : ParsedFile), parse_filename f = some p →
      R (groupKeyOf p) p) :
    ∀ (files : List String) (gs : List (String × List ParsedFile)),
    (∀ g ∈ gs, ∀ q ∈ g.2, R g.1 q) →
    ∀ g ∈ files.foldl
        (fun gs file =>
          match parse_filename file with
          | none => gs
          | some parsed => addToGroup gs (groupKeyOf parsed) parsed) gs,
      ∀ q ∈ g.2, R g.1 q := by
  intro files
  induction files with
  | nil =>
    intro gs hgs
    simpa using hgs
  | cons f fs ih =>
    intro gs hgs
    rw [List.foldl_cons]
    cases hp : parse_filename f with
    | none =>
      simp only [hp]
      exact ih gs hgs
    | some parsed =>
      simp only [hp]
      exact ih _ (addToGroup_mem gs _ parsed hgs (hR f parsed hp))

lemma group_files_aux_nodup :
    ∀ (files : List String) (gs : List (String × List ParsedFile)),
    (gs.map Prod.fst).Nodup →
    ((files.foldl
        (fun gs file =>
          match parse_filename file with
          | none => gs
          | some parsed => addToGroup gs (groupKeyOf parsed) parsed) gs).map
      Prod.fst).Nodup := by
  intro files
  induction files with
  | nil =>
    intro gs h
    simpa using h
  | cons f fs ih =>
    intro gs h
    rw [List.foldl_cons]
    cases hp : parse_filename f with
    | none =>
      simp only [hp]
      exact ih gs h
    | some parsed =>
      simp only [hp]
      exact ih _ (addToGroup_keys_nodup gs _ parsed h)

lemma group_files_aux_flatten :
    ∀ (files : List String) (gs : List (String × List ParsedFile)),
    ((files.foldl
        (fun gs file =>
          match parse_filename file with
          | none => gs
          | some parsed => addToGroup gs (groupKeyOf parsed) parsed) gs).map
      Prod.snd).flatten.Perm
      ((gs.map Prod.snd).flatten ++ files.filterMap parse_filename) := by
  intro files
  induction files with
  | nil =>
    intro gs
    simp
  | cons f fs ih =>
    intro gs
    rw [List.foldl_cons, List.filterMap_cons]
    cases hp : parse_filename f with
    | none =>
      simp only [hp]
      exact ih gs
    | some parsed =>
      simp only [hp]
      have h1 := ih (addToGroup gs (groupKeyOf parsed) parsed)
      have h3 : (((addToGroup gs (groupKeyOf parsed) parsed).map Prod.snd).flatten
            ++ fs.filterMap parse_filename).Perm
          (((gs.map Prod.snd).flatten ++ [parsed]) ++ fs.filterMap parse_filename) :=
        List.Perm.append_right _ (addToGroup_flatten_perm gs (groupKeyOf parsed) parsed)
      refine h1.trans (h3.trans ?_)
      rw [List.append_assoc]
      exact List.Perm.refl _

lemma sumSizes_eq_flatten (gs : List (String × List ParsedFile)) :
    sumSizes gs = ((gs.map Prod.snd).flatten).length := by
  rw [List.length_flatten, List.map_map]
  rfl

lemma length_filterMap_parse_lt (files : List String)
    (h : ∃ f ∈ files, parse_filename f = none) :
    (files.filterMap parse_filename).length < files.length := by
  induction files with
  | nil => simp at h
  | cons f fs ih =>
    rcases h with ⟨f0, hf0, hnone⟩
    rw [List.filterMap_cons]
    cases hp : parse_filename f with
    | none =>
      simp only [List.length_cons]
      exact Nat.lt_succ_of_le (List.length_filterMap_le _ _)
    | some parsed =>
      have hmem : f0 ∈ fs := by
        rcases List.mem_cons.mp hf0 with rfl | hm
        · rw [hp] at hnone
          cases hnone
        · exact hm
      simp only [List.length_cons]
      exact Nat.succ_lt_succ (ih ⟨f0, hmem, hnone⟩)

/-- C4: grouping is a partition of the recognized descriptors: group keys are
pairwise distinct; every member of a group carries exactly that group's key
(`date ++ "_" ++ baseName`) and was produced by classification of its own
name; two members of one group agree on date and base name (the key uniquely
determines the pair, dates being exactly 8 characters); and the descriptors
listed across all groups form exactly the multiset of recognized descriptors
(each belongs to exactly one group). -/
theorem c4_grouping_partition (files : List String) :
    ((group_files files).map Prod.fst).Nodup
    ∧ (∀ g ∈ group_files files, ∀ p ∈ g.2,
        g.1 = groupKeyOf p ∧ parse_filename p.full_name = some p)
    ∧ (∀ g ∈ group_files files, ∀ p ∈ g.2, ∀ q ∈ g.2,
        p.date = q.date ∧ p.base_name = q.base_name)
    ∧ ((group_files files).map Prod.snd).flatten.Perm
        (files.filterMap parse_filename) := by
  have hmem := group_files_aux_mem
    (R := fun k q => k = groupKeyOf q ∧ parse_filename q.full_name = some q
      ∧ q.date.length = 8)
    (fun f p hp => by
      obtain ⟨hfn, hd⟩ := parse_filename_inv f p hp
      exact ⟨rfl, by rw [hfn]; exact hp, hd⟩)
    files [] (by simp)
  refine ⟨group_files_aux_nodup files [] (by simp), ?_, ?_, ?_⟩
  · intro g hg p hp
    obtain ⟨h1, h2, _⟩ := hmem g hg p hp
    exact ⟨h1, h2⟩
  · intro g hg p hp q hq
    obtain ⟨hk1, _, hd1⟩ := hmem g hg p hp
    obtain ⟨hk2, _, hd2⟩ := hmem g hg q hq
    exact groupKey_inj p q hd1 hd2 (by rw [← hk1, ← hk2])
  · have h := group_files_aux_flatten files []
    simpa using h

/-- Witness for C4 at the spec's multi-part example listing plus one
unrecognized name. -/
theorem c4_grouping_partition_witness :
    ((group_files
      ["01_20240115_report.csv", "02_20240115_report.csv", "garbage"]).map
        Prod.fst).Nodup
    ∧ (("20240115_report" : String)
        = groupKeyOf ⟨some 1, "20240115", "report", false, "01_20240115_report.csv"⟩
        ∧ parse_filename "01_20240115_report.csv"
          = some ⟨some 1, "20240115", "report", false, "01_20240115_report.csv"⟩)
    ∧ (("20240115" : String) = "20240115" ∧ ("report" : String) = "report")
    ∧ ((group_files
        ["01_20240115_report.csv", "02_20240115_report.csv", "garbage"]).map
          Prod.snd).flatten.Perm
        (["01_20240115_report.csv", "02_20240115_report.csv",
          "garbage"].filterMap parse_filename) := by
  have h := c4_grouping_partition
    ["01_20240115_report.csv", "02_20240115_report.csv", "garbage"]
  refine ⟨h.1,
    h.2.1 ("20240115_report",
        [⟨some 1, "20240115", "report", false, "01_20240115_report.csv"⟩,
         ⟨some 2, "20240115", "report", false, "02_20240115_report.csv"⟩])
      (by decide)
      ⟨some 1, "20240115", "report", false, "01_20240115_report.csv"⟩ (by decide),
    ?_, h.2.2.2⟩
  exact h.2.2.1 ("20240115_report",
      [⟨some 1, "20240115", "report", false, "01_20240115_report.csv"⟩,
       ⟨some 2, "20240115", "report", false, "02_20240115_report.csv"⟩])
    (by decide)
    ⟨some 1, "20240115", "report", false, "01_20240115_report.csv"⟩ (by decide)
    ⟨some 2, "20240115", "report", false, "02_20240115_report.csv"⟩ (by decide)

lemma endsWith_csv_ext (x ext : List Char)
    (he : ext = ".zip".data ∨ ext = ".csv".data) :
    endsWithChars ".csv".data (x ++ ext) = (ext == ".csv".data) := by
  rcases he with rfl | rfl <;>
    (simp only [endsWithChars, List.reverse_append]
     rw [List.take_left' (by decide)]
     decide)

lemma endsWith_zip_nl (x ext5 : List Char)
    (he : ext5 = (".zip" ++ "\n").data ∨ ext5 = (".csv" ++ "\n").data) :
    endsWithChars ".zip".data (x ++ ext5) = false := by
  rcases he with rfl | rfl <;>
    (simp only [endsWithChars, List.reverse_append]
     rw [List.take_append_of_le_length (by decide)]
     decide)

lemma wireName_data_append (p : Option (List Char)) (d b ext : List Char) :
    (wireName p d b ext).data
      = ((match p with | some q => q ++ ['_'] | none => []) ++ (d ++ '_' :: b)) ++ ext := by
  show ((match p with | some q => q ++ ['_'] | none => []) ++ (d ++ '_' :: (b ++ ext))) = _
  simp

lemma wireName_endsWithExt (p : Option (List Char)) (d b ext : List Char)
    (he : ext = ".zip".data ∨ ext = ".csv".data) :
    endsWithExt (wireName p d b ext) = true := by
  unfold endsWithExt
  rw [wireName_data_append, endsWith_ext _ _ he, endsWith_csv_ext _ _ he]
  rcases he with rfl | rfl <;> rfl

lemma parse_filename_newline
    (p : Option (List Char)) (d b ext : List Char)
    (hd8 : d.length = 8) (hdd : ∀ c ∈ d, c.isDigit = true)
    (hb : b ≠ []) (hbn : '\n' ∉ b)
    (hext : ext = ".zip".data ∨ ext = ".csv".data)
    (hpre : ∀ q, p = some q → q ≠ [] ∧ ∀ c ∈ q, c.isDigit = true)
    (hnone : p = none → ¬ prefAmb b) :
    parse_filename (wireName p d b ext ++ "\n")
      = some { part_num := p.map strToNat, date := String.mk d,
               base_name := String.mk b, is_zip := false,
               full_name := wireName p d b ext ++ "\n" } := by
  have he5 : ext ++ "\n".data = (".zip" ++ "\n").data
      ∨ ext ++ "\n".data = (".csv" ++ "\n").data := by
    rcases hext with rfl | rfl
    · exact Or.inl (by decide)
    · exact Or.inr (by decide)
  have he4 : ext ++ "\n".data = ".zip".data ∨ ext ++ "\n".data = ".csv".data
      ∨ ext ++ "\n".data = (".zip" ++ "\n").data
      ∨ ext ++ "\n".data = (".csv" ++ "\n").data := by
    rcases he5 with h | h
    · exact Or.inr (Or.inr (Or.inl h))
    · exact Or.inr (Or.inr (Or.inr h))
  cases p with
  | none =>
    have hdata : (wireName none d b ext ++ "\n").data
        = d ++ '_' :: (b ++ (ext ++ "\n".data)) := by
      rw [String.data_append]
      show (([] : List Char) ++ (d ++ '_' :: (b ++ ext))) ++ "\n".data = _
      simp
    have hpy : pyMatch (wireName none d b ext ++ "\n").data = some (none, d, b) := by
      rw [hdata]
      exact pyMatch_noPre d b (ext ++ "\n".data) hd8 hdd hb hbn he4 (hnone rfl)
    have hzip : endsWithChars ".zip".data (wireName none d b ext ++ "\n").data
        = false := by
      rw [hdata,
        show d ++ '_' :: (b ++ (ext ++ "\n".data))
            = (d ++ '_' :: b) ++ (ext ++ "\n".data) by simp]
      exact endsWith_zip_nl _ _ he5
    simp only [parse_filename, hpy, hzip]
  | some q =>
    obtain ⟨hq, hqd⟩ := hpre q rfl
    have hdata : (wireName (some q) d b ext ++ "\n").data
        = q ++ '_' :: (d ++ '_' :: (b ++ (ext ++ "\n".data))) := by
      rw [String.data_append]
      show ((q ++ ['_']) ++ (d ++ '_' :: (b ++ ext))) ++ "\n".data = _
      simp
    have hpy : pyMatch (wireName (some q) d b ext ++ "\n").data
        = some (some q, d, b) := by
      rw [hdata]
      exact pyMatch_withPre q d b (ext ++ "\n".data) hq hqd hd8 hdd hb hbn he4
    have hzip : endsWithChars ".zip".data (wireName (some q) d b ext ++ "\n").data
        = false := by
      rw [hdata,
        show q ++ '_' :: (d ++ '_' :: (b ++ (ext ++ "\n".data)))
            = (q ++ '_' :: (d ++ '_' :: b)) ++ (ext ++ "\n".data) by simp]
      exact endsWith_zip_nl _ _ he5
    simp only [parse_filename, hpy, hzip]

lemma group_files_singleton (f : String) (desc : ParsedFile)
    (h : parse_filename f = some desc) :
    group_files [f] = [(groupKeyOf desc, [desc])] := by
  unfold group_files
  rw [List.foldl_cons]
  simp only [h]
  rfl

/-- C5 counterexample, refuting the claim in two ways on explicit inputs.
First, with listing `["20240115_report.csv", "garbage"]` the name
`"garbage"` is unrecognized, yet the sum of group sizes (1) *equals* the
number of recognized names (1) — it is not strictly less, contradicting
"strictly less [than the number of recognized names] when unrecognized names
exist".  Second, `"20240115_report.csv\n"` matches the wire format under no
decomposition — every wire-format name ends in `.csv` or `.zip`
(`wireName_endsWithExt`), which this name fails (`endsWithExt` is false) —
yet the classifier produces a descriptor for it (the regex `$` matches
before a trailing newline) and the Group Builder places it in a group,
contradicting "classify rejects it ... and the Group Builder never includes
it in any group's member list". -/
theorem c5_counterexample :
    parse_filename "garbage" = none
    ∧ "garbage" ∈ ["20240115_report.csv", "garbage"]
    ∧ sumSizes (group_files ["20240115_report.csv", "garbage"])
        = (["20240115_report.csv", "garbage"].filterMap parse_filename).length
    ∧ ¬ (sumSizes (group_files ["20240115_report.csv", "garbage"])
        < (["20240115_report.csv", "garbage"].filterMap parse_filename).length)
    ∧ endsWithExt "20240115_report.csv\n" = false
    ∧ parse_filename "20240115_report.csv\n"
        = some ⟨none, "20240115", "report", false, "20240115_report.csv\n"⟩
    ∧ group_files ["20240115_report.csv\n"]
        = [("20240115_report",
            [⟨none, "20240115", "report", false, "20240115_report.csv\n"⟩])] := by
  exact ⟨by decide, by decide, by decide, by decide, by decide, by decide, by decide⟩

/-- C5 (amended): any filename the classifier rejects produces no descriptor,
raises no error, and appears in no group's member list.  Classifier rejection
is, however, not the same as "not matching the wire format": the regex also
accepts any wire-format name followed by a single trailing newline — such a
name is classified (part number, date and base name read as usual, the
archive flag false) — and every classified name, these included, is placed in
its group by the Group Builder.  The sum of all group sizes *equals* the
number of recognized names, hence is at most the number of listed names and
strictly less than the number of listed names whenever some listed name is
unrecognized. -/
theorem c5_rejection_and_sizes (files : List String) :
    (∀ f, parse_filename f = none →
        ∀ g ∈ group_files files, ∀ p ∈ g.2, p.full_name ≠ f)
    ∧ (∀ (p : Option (List Char)) (d b ext : List Char),
        d.length = 8 → (∀ c ∈ d, c.isDigit = true) →
        b ≠ [] → '\n' ∉ b →
        (ext = ".zip".data ∨ ext = ".csv".data) →
        (∀ q, p = some q → q ≠ [] ∧ ∀ c ∈ q, c.isDigit = true) →
        (p = none → ¬ prefAmb b) →
        parse_filename (wireName p d b ext ++ "\n")
          = some { part_num := p.map strToNat, date := String.mk d,
                   base_name := String.mk b, is_zip := false,
                   full_name := wireName p d b ext ++ "\n" })
    ∧ (∀ (f : String) (desc : ParsedFile), parse_filename f = some desc →
        group_files [f] = [(groupKeyOf desc, [desc])])
    ∧ sumSizes (group_files files) = (files.filterMap parse_filename).length
    ∧ sumSizes (group_files files) ≤ files.length
    ∧ ((∃ f ∈ files, parse_filename f = none) →
        sumSizes (group_files files) < files.length) := by
  have hperm : ((group_files files).map Prod.snd).flatten.Perm
      (files.filterMap parse_filename) := by
    have h := group_files_aux_flatten files []
    simpa using h
  have hlen : sumSizes (group_files files)
      = (files.filterMap parse_filename).length := by
    rw [sumSizes_eq_flatten]
    exact hperm.length_eq
  refine ⟨?_,
    fun p d b ext hd8 hdd hb hbn hext hpre hnone =>
      parse_filename_newline p d b ext hd8 hdd hb hbn hext hpre hnone,
    group_files_singleton, hlen, ?_, ?_⟩
  · intro f hf g hg p hp hfn
    have hmem := group_files_aux_mem
      (R := fun _ q => parse_filename q.full_name = some q)
      (fun f' p' hp' => by
        show parse_filename p'.full_name = some p'
        rw [(parse_filename_inv f' p' hp').1]
        exact hp')
      files [] (by simp)
    have hq : parse_filename p.full_name = some p := hmem g hg p hp
    rw [hfn, hf] at hq
    cases hq
  · rw [hlen]
    exact List.length_filterMap_le _ _
  · intro hex
    rw [hlen]
    exact length_filterMap_parse_lt files hex

/-- Witness for C5 (amended): a listing with one unrecognized name, and the
trailing-newline acceptance instantiated at the spec's example name. -/
theorem c5_rejection_and_sizes_witness :
    parse_filename "garbage" = none
    ∧ sumSizes (group_files ["20240115_report.csv", "garbage"]) < 2
    ∧ parse_filename (wireName none "20240115".data "report".data ".csv".data ++ "\n")
      = some { part_num := none, date := "20240115", base_name := "report",
               is_zip := false,
               full_name :=
                 wireName none "20240115".data "report".data ".csv".data ++ "\n" } := by
  refine ⟨by decide, ?_, ?_⟩
  · exact (c5_rejection_and_sizes ["20240115_report.csv", "garbage"]).2.2.2.2.2
      ⟨"garbage", by decide, by decide⟩
  · exact (c5_rejection_and_sizes []).2.1 none "20240115".data "report".data
      ".csv".data (by decide) (by decide) (by decide) (by decide) (Or.inr rfl)
      (fun q hq => by cases hq) (fun _ => by unfold prefAmb; decide)

/- # Lemmas about the merge order (C2) -/

lemma char_toNat_inj (a b : Char) (h : a.toNat = b.toNat) : a = b :=
  Char.eq_of_val_eq (UInt32.ext h)

lemma lexLe_total : ∀ a b : List Char, lexLe a b = true ∨ lexLe b a = true := by
  intro a
  induction a with
  | nil => intro b; exact Or.inl rfl
  | cons x xs ih =>
    intro b
    cases b with
    | nil => exact Or.inr rfl
    | cons y ys =>
      by_cases hxy : x = y
      · subst hxy
        simp only [lexLe, if_pos rfl]
        exact ih ys
      · rcases Nat.lt_or_ge x.toNat y.toNat with h | h
        · left
          simp only [lexLe, if_neg hxy]
          exact decide_eq_true h
        · right
          have hne : ¬ y = x := fun he => hxy he.symm
          have hlt : y.toNat < x.toNat :=
            Nat.lt_of_le_of_ne h (fun he => hne (char_toNat_inj y x he))
          simp only [lexLe, if_neg hne]
          exact decide_eq_true hlt

lemma lexLe_trans : ∀ a b c : List Char,
    lexLe a b = true → lexLe b c = true → lexLe a c = true := by
  intro a
  induction a with
  | nil => intro b c _ _; rfl
  | cons x xs ih =>
    intro b c hab hbc
    cases b with
    | nil => exact absurd hab (by simp [lexLe])
    | cons y ys =>
      cases c with
      | nil => exact absurd hbc (by simp [lexLe])
      | cons z zs =>
        by_cases hxy : x = y
        · subst hxy
          by_cases hyz : x = z
          · subst hyz
            simp only [lexLe, if_pos rfl] at hab hbc ⊢
            exact ih ys zs hab hbc
          · simp only [lexLe, if_neg hyz] at hbc ⊢
            exact hbc
        · by_cases hyz : y = z
          · subst hyz
            simp only [lexLe, if_neg hxy] at hab ⊢
            exact hab
          · by_cases hxz : x = z
            · subst hxz
              exfalso
              simp only [lexLe, if_neg hxy] at hab
              simp only [lexLe, if_neg hyz] at hbc
              have h1 := of_decide_eq_true hab
              have h2 := of_decide_eq_true hbc
              omega
            · simp only [lexLe, if_neg hxy] at hab
              simp only [lexLe, if_neg hyz] at hbc
              simp only [lexLe, if_neg hxz]
              have h1 := of_decide_eq_true hab
              have h2 := of_decide_eq_true hbc
              exact decide_eq_true (Nat.lt_trans h1 h2)

lemma lexLe_antisymm : ∀ a b : List Char,
    lexLe a b = true → lexLe b a = true → a = b := by
  intro a
  induction a with
  | nil =>
    intro b _ hba
    cases b with
    | nil => rfl
    | cons y ys => exact absurd hba (by simp [lexLe])
  | cons x xs ih =>
    intro b hab hba
    cases b with
    | nil => exact absurd hab (by simp [lexLe])
    | cons y ys =>
      by_cases hxy : x = y
      · subst hxy
        simp only [lexLe, if_pos rfl] at hab hba
        rw [ih ys hab hba]
      · exfalso
        have hne : ¬ y = x := fun h => hxy h.symm
        simp only [lexLe, if_neg hxy] at hab
        simp only [lexLe, if_neg hne] at hba
        have h1 := of_decide_eq_true hab
        have h2 := of_decide_eq_true hba
        omega

instance : IsTotal String (fun a b => strLe a b = true) :=
  ⟨fun a b => lexLe_total a.data b.data⟩

instance : IsTrans String (fun a b => strLe a b = true) :=
  ⟨fun a b c => lexLe_trans a.data b.data c.data⟩

instance : IsAntisymm String (fun a b => strLe a b = true) :=
  ⟨fun a b h1 h2 => String.ext (lexLe_antisymm a.data b.data h1 h2)⟩

lemma sortStrings_sorted (l : List String) :
    List.Sorted (fun a b => strLe a b = true) (sortStrings l) :=
  List.sorted_insertionSort _ l

lemma sortStrings_perm (l : List String) : (sortStrings l).Perm l :=
  List.perm_insertionSort _ l

lemma sortStrings_eq_of_perm_sorted (l l' : List String) (h : l.Perm l')
    (hs : List.Sorted (fun a b => strLe a b = true) l') : sortStrings l = l' :=
  List.eq_of_perm_of_sorted ((sortStrings_perm l).trans h) (sortStrings_sorted l) hs

lemma sortStrings_congr (l l' : List String) (h : l.Perm l') :
    sortStrings l = sortStrings l' :=
  List.eq_of_perm_of_sorted
    ((sortStrings_perm l).trans (h.trans (sortStrings_perm l').symm))
    (sortStrings_sorted l) (sortStrings_sorted l')

lemma readConcat_ok (fs : LocalFS) (contents : String → Bytes) :
    ∀ l : List String, (∀ p ∈ l, getFile fs.files p = some (contents p)) →
    readConcat fs l = Except.ok ((l.map contents).flatten) := by
  intro l
  induction l with
  | nil => intro _; rfl
  | cons p rest ih =>
    intro h
    have hp := h p (List.mem_cons_self _ _)
    simp only [readConcat, hp, List.map_cons, List.flatten_cons]
    rw [ih (fun q hq => h q (List.mem_cons_of_mem _ hq))]
    rfl

/-- C2: the reassembled artifact's byte content is the concatenation of the
members' raw bytes in ascending lexicographic order of their local paths —
for any sorted permutation `l2` of the supplied paths, `merge_files` writes
`flatten (map contents l2)` into the output file — and the entire merge
result is identical for every permutation of the supplied path list
(independent of listing/fetch order). -/
theorem c2_merge_ascending_and_order_independent :
    (∀ (fs : LocalFS) (l1 l2 : List String) (contents : String → Bytes)
        (output : String),
      l1.Perm l2 → List.Sorted (fun a b => strLe a b = true) l2 →
      (∀ p ∈ l1, getFile (setFile fs.files output []) p = some (contents p)) →
      merge_files fs l1 output =
        (Except.ok (),
         LocalFS.mk
           (setFile (setFile fs.files output []) output ((l2.map contents).flatten))
           fs.dirs))
    ∧ (∀ (fs : LocalFS) (l1 l1' : List String) (output : String),
      l1.Perm l1' → merge_files fs l1 output = merge_files fs l1' output) := by
  constructor
  · intro fs l1 l2 contents output hperm hsort hget
    have hrc := readConcat_ok { fs with files := setFile fs.files output [] }
      contents l2 (fun p hp => hget p (hperm.mem_iff.mpr hp))
    simp only [merge_files, sortStrings_eq_of_perm_sorted l1 l2 hperm hsort, hrc]
  · intro fs l1 l1' output hperm
    unfold merge_files
    rw [sortStrings_congr l1 l1' hperm]

/-- Witness for C2 at the spec's scrambled three-part example. -/
theorem c2_merge_witness :
    merge_files ⟨[("/w/002_x", [2]), ("/w/001_x", [1]), ("/w/010_x", [3])], []⟩
        ["/w/002_x", "/w/001_x", "/w/010_x"] "/w/out.csv"
      = (Except.ok (),
         ⟨[("/w/002_x", [2]), ("/w/001_x", [1]), ("/w/010_x", [3]),
           ("/w/out.csv", [1, 2, 3])], []⟩)
    ∧ merge_files ⟨[("/w/002_x", [2]), ("/w/001_x", [1]), ("/w/010_x", [3])], []⟩
        ["/w/002_x", "/w/001_x", "/w/010_x"] "/w/out.csv"
      = merge_files ⟨[("/w/002_x", [2]), ("/w/001_x", [1]), ("/w/010_x", [3])], []⟩
        ["/w/001_x", "/w/002_x", "/w/010_x"] "/w/out.csv" := by
  constructor
  · have h := c2_merge_ascending_and_order_independent.1
      ⟨[("/w/002_x", [2]), ("/w/001_x", [1]), ("/w/010_x", [3])], []⟩
      ["/w/002_x", "/w/001_x", "/w/010_x"]
      ["/w/001_x", "/w/002_x", "/w/010_x"]
      (fun p => if p = "/w/001_x" then [1] else if p = "/w/002_x" then [2] else [3])
      "/w/out.csv" (by decide) (by decide) (by decide)
    rw [h]
    rfl
  · exact c2_merge_ascending_and_order_independent.2
      ⟨[("/w/002_x", [2]), ("/w/001_x", [1]), ("/w/010_x", [3])], []⟩
      ["/w/002_x", "/w/001_x", "/w/010_x"] ["/w/001_x", "/w/002_x", "/w/010_x"]
      "/w/out.csv" (by decide)

/- # Lemmas about the merge trigger (C3, C10) -/

lemma mergeTriggered_iff (fg : List ParsedFile) :
    mergeTriggered fg = true ↔ ∃ f ∈ fg, ∃ n, f.part_num = some n ∧ n ≠ 0 := by
  unfold mergeTriggered
  rw [List.any_eq_true]
  constructor
  · rintro ⟨f, hf, hb⟩
    refine ⟨f, hf, ?_⟩
    cases hpn : f.part_num with
    | none =>
      rw [hpn] at hb
      cases hb
    | some n =>
      rw [hpn] at hb
      simp only [bne_iff_ne, ne_eq] at hb
      exact ⟨n, rfl, hb⟩
  · rintro ⟨f, hf, n, hn, hne⟩
    refine ⟨f, hf, ?_⟩
    rw [hn]
    simpa using hne

lemma mergeTriggered_false (fg : List ParsedFile)
    (h : ∀ f ∈ fg, f.part_num = none ∨ f.part_num = some 0) :
    mergeTriggered fg = false := by
  rw [← Bool.not_eq_true, mergeTriggered_iff]
  rintro ⟨f, hf, n, hn, hne⟩
  rcases h f hf with h0 | h0 <;> rw [h0] at hn
  · cases hn
  · cases hn
    exact hne rfl

/-- C3 counterexample: the filename `0_20240115_a.csv` classifies
successfully with part number 0 — a partNumber *present* — and yet the
pipeline performs no merge for its singleton group: the multi-part step
returns the downloaded file list unchanged rather than the merged
`{groupKey}.csv` artifact. -/
theorem c3_counterexample :
    parse_filename "0_20240115_a.csv"
      = some ⟨some 0, "20240115", "a", false, "0_20240115_a.csv"⟩
    ∧ stage2 "20240115_a" "/tmp/20240115_a"
        [⟨some 0, "20240115", "a", false, "0_20240115_a.csv"⟩]
        ["/tmp/20240115_a/0_20240115_a.csv"]
        ⟨[("/tmp/20240115_a/0_20240115_a.csv", [7])], ["/tmp/20240115_a"]⟩
      = (Except.ok ["/tmp/20240115_a/0_20240115_a.csv"],
         ⟨[("/tmp/20240115_a/0_20240115_a.csv", [7])], ["/tmp/20240115_a"]⟩)
    ∧ ["/tmp/20240115_a/0_20240115_a.csv"]
        ≠ [pyJoin "/tmp/20240115_a" ("20240115_a" ++ ".csv")] :=
  ⟨by decide, by rfl, by decide⟩

/-- C3 (amended): the Group Pipeline applies merge treatment to a group iff
some member carries a part number that is present *and nonzero* (Python's
truthiness makes a part number of 0 behave like an absent one): in that case
the downloaded files are merged into the single artifact `{groupKey}.csv`
inside the working directory, which replaces the member list for subsequent
steps; and when no member has a part number present, each file proceeds
independently and no merge occurs. -/
theorem c3_merge_trigger (group_key wd : String) (fg : List ParsedFile)
    (locals : List String) (fs fs' : LocalFS) :
    (mergeTriggered fg = true ↔ ∃ f ∈ fg, ∃ n, f.part_num = some n ∧ n ≠ 0)
    ∧ ((∃ f ∈ fg, ∃ n, f.part_num = some n ∧ n ≠ 0) →
        merge_files fs locals (pyJoin wd (group_key ++ ".csv"))
          = (Except.ok (), fs') →
        stage2 group_key wd fg locals fs
          = (Except.ok [pyJoin wd (group_key ++ ".csv")], fs'))
    ∧ ((∀ f ∈ fg, f.part_num = none) →
        stage2 group_key wd fg locals fs = (Except.ok locals, fs)) := by
  refine ⟨mergeTriggered_iff fg, ?_, ?_⟩
  · intro hex hmerge
    unfold stage2
    rw [if_pos ((mergeTriggered_iff fg).mpr hex)]
    simp only [hmerge]
  · intro hall
    unfold stage2
    rw [if_neg (by rw [mergeTriggered_false fg (fun f hf => Or.inl (hall f hf))]; simp)]

/-- Witness for C3 (amended) on a singleton group with part number 1. -/
theorem c3_merge_trigger_witness :
    stage2 "20240115_report" "/tmp/20240115_report"
      [⟨some 1, "20240115", "report", false, "01_20240115_report.csv"⟩]
      ["/tmp/20240115_report/01_20240115_report.csv"]
      ⟨[("/tmp/20240115_report/01_20240115_report.csv", [9])], []⟩
    = (Except.ok [pyJoin "/tmp/20240115_report" ("20240115_report" ++ ".csv")],
       ⟨[("/tmp/20240115_report/01_20240115_report.csv", [9]),
         ("/tmp/20240115_report/20240115_report.csv", [9])], []⟩) :=
  (c3_merge_trigger "20240115_report" "/tmp/20240115_report"
      [⟨some 1, "20240115", "report", false, "01_20240115_report.csv"⟩]
      ["/tmp/20240115_report/01_20240115_report.csv"]
      ⟨[("/tmp/20240115_report/01_20240115_report.csv", [9])], []⟩
      ⟨[("/tmp/20240115_report/01_20240115_report.csv", [9]),
        ("/tmp/20240115_report/20240115_report.csv", [9])], []⟩).2.1
    ⟨⟨some 1, "20240115", "report", false, "01_20240115_report.csv"⟩,
      by decide, 1, rfl, by decide⟩
    (by rfl)

/-- C10: a filename with numeric prefix "0" (or "00") classifies
successfully with part number 0 rather than being rejected, and the merge
trigger treats a part number of 0 the same as an absent one: in any group
whose members all have an absent or zero part number, no merge is performed
and the downloaded files proceed independently. -/
theorem c10_zero_part_number :
    parse_filename "0_20240115_a.csv"
      = some ⟨some 0, "20240115", "a", false, "0_20240115_a.csv"⟩
    ∧ parse_filename "00_20240115_a.csv"
      = some ⟨some 0, "20240115", "a", false, "00_20240115_a.csv"⟩
    ∧ ∀ (group_key wd : String) (fg : List ParsedFile) (locals : List String)
        (fs : LocalFS),
        (∀ f ∈ fg, f.part_num = none ∨ f.part_num = some 0) →
        stage2 group_key wd fg locals fs = (Except.ok locals, fs) := by
  refine ⟨by decide, by decide, ?_⟩
  intro group_key wd fg locals fs h
  unfold stage2
  rw [if_neg (by rw [mergeTriggered_false fg h]; simp)]

/-- Witness for C10 on a singleton group with part number 0. -/
theorem c10_zero_part_number_witness :
    stage2 "20240115_a" "/tmp/20240115_a"
      [⟨some 0, "20240115", "a", false, "0_20240115_a.csv"⟩]
      ["/tmp/20240115_a/0_20240115_a.csv"] ⟨[], []⟩
    = (Except.ok ["/tmp/20240115_a/0_20240115_a.csv"], ⟨[], []⟩) :=
  c10_zero_part_number.2.2 "20240115_a" "/tmp/20240115_a"
    [⟨some 0, "20240115", "a", false, "0_20240115_a.csv"⟩]
    ["/tmp/20240115_a/0_20240115_a.csv"] ⟨[], []⟩ (by decide)

/- # C6: the gzip size ceiling -/

/-- C6: the compress step fails with the size-policy violation — a
`ValueError`, distinguishable from I/O errors — iff the compressed output
exceeds 250 MiB (`250 * 1024 * 1024` bytes); within the ceiling the step
succeeds and the output file holds the complete compressed bytes,
untruncated. -/
theorem c6_gzip_size_ceiling (gz : Bytes → Bytes) (fs : LocalFS)
    (input output : String) (c : Bytes)
    (hin : getFile fs.files input = some c) :
    ((∃ m, (gzip_file gz fs input output).1 = Except.error (PyErr.valueError m))
      ↔ 250 * 1024 * 1024 < (gz c).length)
    ∧ (¬ 250 * 1024 * 1024 < (gz c).length →
        gzip_file gz fs input output =
          (Except.ok (), { fs with files := setFile fs.files output (gz c) })) := by
  by_cases hlt : 250 * 1024 * 1024 < (gz c).length
  · have hrun : gzip_file gz fs input output =
        (Except.error (PyErr.valueError
          ("Gzipped file " ++ output ++ " exceeds 250MB limit")),
         { fs with files := setFile fs.files output (gz c) }) := by
      unfold gzip_file
      rw [hin]
      simp only [if_pos hlt]
    exact ⟨⟨fun _ => hlt, fun _ => ⟨_, by rw [hrun]⟩⟩, fun h => absurd hlt h⟩
  · have hrun : gzip_file gz fs input output =
        (Except.ok (), { fs with files := setFile fs.files output (gz c) }) := by
      unfold gzip_file
      rw [hin]
      simp only [if_neg hlt]
    refine ⟨⟨?_, fun h => absurd h hlt⟩, fun _ => hrun⟩
    rintro ⟨m, hm⟩
    rw [hrun] at hm
    cases hm

/-- Witness for C6: a small artifact is accepted untruncated; a compressed
artifact of exactly 250 MiB + 1 byte raises the size-policy violation. -/
theorem c6_gzip_size_ceiling_witness :
    gzip_file (fun x => x) ⟨[("/tmp/a", [1, 2])], []⟩ "/tmp/a" "/tmp/a.gz"
      = (Except.ok (), ⟨[("/tmp/a", [1, 2]), ("/tmp/a.gz", [1, 2])], []⟩)
    ∧ ∃ m, (gzip_file (fun _ => List.replicate (250 * 1024 * 1024 + 1) 0)
        ⟨[("/tmp/a", [1, 2])], []⟩ "/tmp/a" "/tmp/a.gz").1
      = Except.error (PyErr.valueError m) := by
  constructor
  · have h := (c6_gzip_size_ceiling (fun x => x) ⟨[("/tmp/a", [1, 2])], []⟩
      "/tmp/a" "/tmp/a.gz" [1, 2] (by rfl)).2 (by decide)
    rw [h]
    rfl
  · exact (c6_gzip_size_ceiling (fun _ => List.replicate (250 * 1024 * 1024 + 1) 0)
      ⟨[("/tmp/a", [1, 2])], []⟩ "/tmp/a" "/tmp/a.gz" [1, 2] (by rfl)).1.mpr
      (by simp only [List.length_replicate]; omega)

/- # C7: the batch driver -/

lemma runGroups_aux (run : String → List ParsedFile → Except PyErr (List String)) :
    ∀ (groups : List (String × List ParsedFile)) (acc1 acc2 : List String),
    groups.foldl
      (fun acc g =>
        match run g.1 g.2 with
        | .ok ps => (acc.1 ++ ps, acc.2)
        | .error e =>
          (acc.1, acc.2 ++ ["Error processing group " ++ g.1 ++ ": " ++ errStr e]))
      (acc1, acc2)
    = (acc1 ++ (groups.map (fun g =>
          match run g.1 g.2 with
          | Except.ok ps => ps
          | Except.error _ => [])).flatten,
       acc2 ++ groups.filterMap (fun g =>
          match run g.1 g.2 with
          | Except.ok _ => none
          | Except.error e =>
            some ("Error processing group " ++ g.1 ++ ": " ++ errStr e))) := by
  intro groups
  induction groups with
  | nil =>
    intro acc1 acc2
    simp
  | cons g gs ih =>
    intro acc1 acc2
    rw [List.foldl_cons]
    cases hr : run g.1 g.2 with
    | ok ps =>
      simp only [hr, List.map_cons, List.flatten_cons, List.filterMap_cons]
      rw [ih (acc1 ++ ps) acc2]
      simp [List.append_assoc]
    | error e =>
      simp only [hr, List.map_cons, List.flatten_cons, List.filterMap_cons]
      rw [ih acc1
        (acc2 ++ ["Error processing group " ++ g.1 ++ ": " ++ errStr e])]
      simp [List.append_assoc]

/-- C7: the batch driver runs every group: its produced-objects list is
exactly the concatenation, in group order, of the outputs of the successful
groups (a failing group contributes nothing but does not stop iteration);
its error list is exactly one tagged entry
`"Error processing group {groupKey}: ..."` per failing group, in order; and
the response status is the success code 200 exactly when the error list is
empty (500 otherwise). -/
theorem c7_batch_driver_aggregation
    (run : String → List ParsedFile → Except PyErr (List String))
    (groups : List (String × List ParsedFile)) :
    (runGroups run groups).1
      = (groups.map (fun g =>
          match run g.1 g.2 with
          | Except.ok ps => ps
          | Except.error _ => [])).flatten
    ∧ (runGroups run groups).2
      = groups.filterMap (fun g =>
          match run g.1 g.2 with
          | Except.ok _ => none
          | Except.error e =>
            some ("Error processing group " ++ g.1 ++ ": " ++ errStr e))
    ∧ (statusCode (runGroups run groups).2 = 200 ↔ (runGroups run groups).2 = []) := by
  have h := runGroups_aux run groups [] []
  refine ⟨?_, ?_, ?_⟩
  · show (groups.foldl _ ([], [])).1 = _
    rw [h]
    simp
  · show (groups.foldl _ ([], [])).2 = _
    rw [h]
    simp
  · by_cases he : (runGroups run groups).2 = []
    · simp [statusCode, he]
    · simp [statusCode, he]

/- # C8: extraction naming and flat publish namespace -/

lemma splitextFst_zip (x : String)
    (h : (x.data.reverse.takeWhile (fun c => c ≠ '/')).any (fun c => c ≠ '.') = true) :
    splitextFst (x ++ ".zip") = x := by
  have hdata : (x ++ ".zip").data = x.data ++ ".zip".data := String.data_append x ".zip"
  have hrev : (x.data ++ ".zip".data).reverse
      = 'p' :: 'i' :: 'z' :: '.' :: x.data.reverse := by
    rw [List.reverse_append]
    rfl
  have hbase : ('p' :: 'i' :: 'z' :: '.' :: x.data.reverse).takeWhile (fun c => c ≠ '/')
      = 'p' :: 'i' :: 'z' :: '.' :: (x.data.reverse.takeWhile (fun c => c ≠ '/')) := by
    simp
  have hdir : ('p' :: 'i' :: 'z' :: '.' :: x.data.reverse).dropWhile (fun c => c ≠ '/')
      = x.data.reverse.dropWhile (fun c => c ≠ '/') := by
    simp
  have hafter :
      ('p' :: 'i' :: 'z' :: '.' ::
        (x.data.reverse.takeWhile (fun c => c ≠ '/'))).takeWhile (fun c => c ≠ '.')
      = ['p', 'i', 'z'] := by
    simp
  have hxdata : x.data
      = (x.data.reverse.dropWhile (fun c => c ≠ '/')).reverse
        ++ (x.data.reverse.takeWhile (fun c => c ≠ '/')).reverse := by
    conv_lhs => rw [← List.reverse_reverse x.data]
    rw [← List.reverse_append, List.takeWhile_append_dropWhile]
  simp only [splitextFst, hdata, hrev, hbase, hdir, hafter]
  rw [if_neg (by simp)]
  rw [show ((['p', 'i', 'z'] : List Char).length + 1) = 4 from rfl]
  rw [show ('p' :: 'i' :: 'z' :: '.' ::
      (x.data.reverse.takeWhile (fun c => c ≠ '/'))).drop 4
    = x.data.reverse.takeWhile (fun c => c ≠ '/') from rfl]
  rw [if_pos h]
  apply String.ext
  show (x.data.reverse.dropWhile (fun c => c ≠ '/')).reverse
      ++ (x.data.reverse.takeWhile (fun c => c ≠ '/')).reverse = x.data
  exact hxdata.symm

lemma basenameStr_props (p : String) :
    '/' ∉ (basenameStr p).data ∧ ∃ d, p.data = d ++ (basenameStr p).data := by
  constructor
  · unfold basenameStr
    intro hmem
    rw [show (String.mk ((p.data.reverse.takeWhile (fun c => c ≠ '/')).reverse)).data
        = (p.data.reverse.takeWhile (fun c => c ≠ '/')).reverse from rfl] at hmem
    rw [List.mem_reverse] at hmem
    have := List.mem_takeWhile_imp hmem
    simp at this
  · refine ⟨(p.data.reverse.dropWhile (fun c => c ≠ '/')).reverse, ?_⟩
    show p.data = _ ++ (p.data.reverse.takeWhile (fun c => c ≠ '/')).reverse
    conv_lhs => rw [← List.reverse_reverse p.data]
    rw [← List.reverse_append, List.takeWhile_append_dropWhile]

lemma unzipAll_no_zip (uz : Bytes → List (String × Bytes)) (wd : String) :
    ∀ (files : List String) (fs : LocalFS),
    (∀ p ∈ files, endsWithChars ".zip".data p.data = false) →
    unzipAll uz wd files fs = (Except.ok files, fs) := by
  intro files
  induction files with
  | nil =>
    intro fs _
    rfl
  | cons p rest ih =>
    intro fs h
    have hp := h p (List.mem_cons_self _ _)
    simp only [unzipAll, hp]
    rw [ih fs (fun q hq => h q (List.mem_cons_of_mem _ hq))]
    simp [Except.map]

/-- C8: (i) extracting an archive artifact `x ++ ".zip"` (whose final path
component contains some non-dot character, as every classifier-produced path
does) yields the output path `x` — the archive's own name with the archive
extension stripped; (ii) artifacts not carrying the archive extension pass
through the unarchive loop unchanged; (iii) the published object name
`basenameStr` (applied by the pipeline to each compressed artifact's path)
strips all path components: it contains no `/` and is a suffix of the
artifact's path. -/
theorem c8_extraction_naming_and_flat_namespace :
    (∀ (uz : Bytes → List (String × Bytes)) (fs : LocalFS) (x wd : String)
        (c : Bytes),
      getFile fs.files (x ++ ".zip") = some c →
      (x.data.reverse.takeWhile (fun ch => ch ≠ '/')).any (fun ch => ch ≠ '.') = true →
      (unzip_file uz fs (x ++ ".zip") wd).1 = Except.ok x)
    ∧ (∀ (uz : Bytes → List (String × Bytes)) (wd : String) (files : List String)
        (fs : LocalFS),
      (∀ p ∈ files, endsWithChars ".zip".data p.data = false) →
      unzipAll uz wd files fs = (Except.ok files, fs))
    ∧ (∀ p : String, '/' ∉ (basenameStr p).data
        ∧ ∃ d, p.data = d ++ (basenameStr p).data) := by
  refine ⟨?_, unzipAll_no_zip, basenameStr_props⟩
  intro uz fs x wd c hread hbase
  unfold unzip_file
  rw [hread]
  show Except.ok (splitextFst (x ++ ".zip")) = Except.ok x
  rw [splitextFst_zip x hbase]

/-- Witness for C8 at a concrete archive path in a working directory. -/
theorem c8_extraction_naming_witness :
    (unzip_file (fun _ => []) ⟨[("/tmp/k/20240115_a.zip", [1])], []⟩
        "/tmp/k/20240115_a.zip" "/tmp/k").1 = Except.ok "/tmp/k/20240115_a"
    ∧ unzipAll (fun _ => []) "/tmp/k" ["/tmp/k/20240115_a.csv"] ⟨[], []⟩
      = (Except.ok ["/tmp/k/20240115_a.csv"], ⟨[], []⟩)
    ∧ ('/' ∉ (basenameStr "/tmp/k/20240115_a.csv.gz").data
        ∧ ∃ d, "/tmp/k/20240115_a.csv.gz".data
            = d ++ (basenameStr "/tmp/k/20240115_a.csv.gz").data) := by
  refine ⟨?_, ?_, c8_extraction_naming_and_flat_namespace.2.2 "/tmp/k/20240115_a.csv.gz"⟩
  · exact c8_extraction_naming_and_flat_namespace.1 (fun _ => [])
      ⟨[("/tmp/k/20240115_a.zip", [1])], []⟩ "/tmp/k/20240115_a" "/tmp/k" [1]
      (by rfl) (by decide)
  · exact c8_extraction_naming_and_flat_namespace.2.1 (fun _ => []) "/tmp/k"
      ["/tmp/k/20240115_a.csv"] ⟨[], []⟩ (by decide)

/- # C9: working-directory cleanup -/

lemma underDir_self (wd : String) : underDir wd wd = true := by
  unfold underDir
  simp

lemma mem_filter_not_under (wd : String) (l : List String) (p : String)
    (h : underDir wd p = true) : p ∉ l.filter (fun d => !underDir wd d) := by
  intro hmem
  have h2 := (List.mem_filter.mp hmem).2
  rw [h] at h2
  cases h2

lemma mem_filter_not_under_iff (wd p : String) (h : underDir wd p = false)
    (l : List String) : p ∈ l.filter (fun d => !underDir wd d) ↔ p ∈ l := by
  rw [List.mem_filter]
  constructor
  · exact And.left
  · intro hm
    exact ⟨hm, by rw [h]; rfl⟩

lemma getFile_filter_under (wd p : String) (h : underDir wd p = true) :
    ∀ fl : FSFiles, getFile (fl.filter (fun e => !underDir wd e.1)) p = none := by
  intro fl
  induction fl with
  | nil => rfl
  | cons e rest ih =>
    obtain ⟨q, d⟩ := e
    cases he : underDir wd q with
    | true =>
      rw [List.filter_cons, if_neg (by show ¬ (!underDir wd q) = true; rw [he]; simp)]
      exact ih
    | false =>
      rw [List.filter_cons, if_pos (by show (!underDir wd q) = true; rw [he]; rfl)]
      have hne : q ≠ p := fun hep => by rw [hep, h] at he; cases he
      show (if q = p then some d
            else getFile (rest.filter (fun e => !underDir wd e.1)) p) = none
      rw [if_neg hne]
      exact ih

lemma getFile_filter_not_under (wd p : String) (h : underDir wd p = false) :
    ∀ fl : FSFiles, getFile (fl.filter (fun e => !underDir wd e.1)) p = getFile fl p := by
  intro fl
  induction fl with
  | nil => rfl
  | cons e rest ih =>
    obtain ⟨q, d⟩ := e
    cases he : underDir wd q with
    | true =>
      have hne : q ≠ p := fun hep => by rw [hep, h] at he; cases he
      rw [List.filter_cons, if_neg (by show ¬ (!underDir wd q) = true; rw [he]; simp)]
      rw [ih]
      show getFile rest p = (if q = p then some d else getFile rest p)
      rw [if_neg hne]
    | false =>
      rw [List.filter_cons, if_pos (by show (!underDir wd q) = true; rw [he]; rfl)]
      show (if q = p then some d
            else getFile (rest.filter (fun e => !underDir wd e.1)) p)
          = (if q = p then some d else getFile rest p)
      rw [ih]

/-- C9: after `process_file_group` finishes a group — whether the `try` body
returned successfully or failed at any step — the group-scoped working
directory `/tmp/{groupKey}` no longer exists: it is not among the recorded
directories, and no file at or under it remains; and the cleanup touches
nothing outside that directory: every other path keeps exactly the file
content and directory status it had when the body stopped. -/
theorem c9_workdir_cleanup (fetch : String → Option Bytes)
    (uz : Bytes → List (String × Bytes)) (gz : Bytes → Bytes)
    (group_key : String) (file_group : List ParsedFile) (fs0 : LocalFS)
    (p : String) :
    ("/tmp/" ++ group_key) ∉
      (process_file_group fetch uz gz group_key file_group fs0).2.dirs
    ∧ (underDir ("/tmp/" ++ group_key) p = true →
        getFile (process_file_group fetch uz gz group_key file_group fs0).2.files p
          = none)
    ∧ (underDir ("/tmp/" ++ group_key) p = false →
        getFile (process_file_group fetch uz gz group_key file_group fs0).2.files p
          = getFile (process_body fetch uz gz group_key file_group fs0).2.files p
        ∧ (p ∈ (process_file_group fetch uz gz group_key file_group fs0).2.dirs
            ↔ p ∈ (process_body fetch uz gz group_key file_group fs0).2.dirs)) := by
  unfold process_file_group
  rcases hb : process_body fetch uz gz group_key file_group fs0 with ⟨r, fsB⟩
  refine ⟨?_, ?_, ?_⟩
  · exact mem_filter_not_under _ _ _ (underDir_self _)
  · intro h
    exact getFile_filter_under _ _ h fsB.files
  · intro h
    exact ⟨getFile_filter_not_under _ _ h fsB.files,
      mem_filter_not_under_iff _ _ h fsB.dirs⟩

/-- Witness for C9 at a concrete failing group (the fetch collaborator
fails, so the body aborts) whose working directory held a file. -/
theorem c9_workdir_cleanup_witness :
    underDir ("/tmp/" ++ "g") "/tmp/g/x" = true
    ∧ getFile (process_file_group (fun _ => none) (fun _ => []) (fun x => x)
        "g" [⟨none, "20240115", "a", false, "20240115_a.csv"⟩]
        ⟨[("/tmp/g/x", [5]), ("/etc/passwd", [1])], ["/tmp/g"]⟩).2.files "/tmp/g/x"
      = none
    ∧ getFile (process_file_group (fun _ => none) (fun _ => []) (fun x => x)
        "g" [⟨none, "20240115", "a", false, "20240115_a.csv"⟩]
        ⟨[("/tmp/g/x", [5]), ("/etc/passwd", [1])], ["/tmp/g"]⟩).2.files "/etc/passwd"
      = getFile (process_body (fun _ => none) (fun _ => []) (fun x => x)
        "g" [⟨none, "20240115", "a", false, "20240115_a.csv"⟩]
        ⟨[("/tmp/g/x", [5]), ("/etc/passwd", [1])], ["/tmp/g"]⟩).2.files "/etc/passwd" := by
  refine ⟨by decide, ?_, ?_⟩
  · exact (c9_workdir_cleanup (fun _ => none) (fun _ => []) (fun x => x)
      "g" [⟨none, "20240115", "a", false, "20240115_a.csv"⟩]
      ⟨[("/tmp/g/x", [5]), ("/etc/passwd", [1])], ["/tmp/g"]⟩ "/tmp/g/x").2.1
      (by decide)
  · exact ((c9_workdir_cleanup (fun _ => none) (fun _ => []) (fun x => x)
      "g" [⟨none, "20240115", "a", false, "20240115_a.csv"⟩]
      ⟨[("/tmp/g/x", [5]), ("/etc/passwd", [1])], ["/tmp/g"]⟩ "/etc/passwd").2.2
      (by decide)).1
